/-
  Verification development for the Tactical War Room interaction engine
  (src/App.tsx): the snapshot-based history manager (saveHistory / handleUndo),
  the arrow-geometry generator (generateArrowPath), the arrow-drawing gesture
  handlers, wheel-zoom clamping, batch deletion, and background-image handling,
  as shallow Lean embeddings of the source.
-/
import Mathlib

set_option maxHeartbeats 1000000

/-! ## History manager (src/App.tsx lines 110-132) -/

/-- Embedding of `saveHistory` (App.tsx lines 110-120) acting on the history
stack (oldest snapshot first, current state last), with the serialized
snapshot passed as an argument.  The source compares the new JSON against the
top (`lastState === json`) and returns unchanged on a match, otherwise pushes
and, when the length exceeds 50, shifts off the oldest entry. -/
def saveHistory {α : Type} [DecidableEq α] (h : List α) (s : α) : List α :=
  if h.getLast? = some s then h
  else if 50 < (h ++ [s]).length then (h ++ [s]).tail else h ++ [s]

/-- Embedding of the stack effect of `handleUndo` (App.tsx lines 122-132):
return unchanged when `length <= 1`, otherwise pop the current top. -/
def undoStack {α : Type} (h : List α) : List α :=
  if h.length ≤ 1 then h else h.dropLast

/-- History stacks reachable after engine initialization.  The initialization
effect (App.tsx line 176) performs one `saveHistory()` commit of the base
scene on the empty stack; afterwards the stack is mutated only through
`saveHistory` (with arbitrary serialized scenes) and the `handleUndo` pop. -/
inductive ReachableHistory : List ℕ → Prop where
  | init (s : ℕ) : ReachableHistory (saveHistory [] s)
  | save (h : List ℕ) (s : ℕ) : ReachableHistory h → ReachableHistory (saveHistory h s)
  | undo (h : List ℕ) : ReachableHistory h → ReachableHistory (undoStack h)

/-! ## Undo and materialization (src/App.tsx lines 122-132, 155-181) -/

/-- The canvas-level state relevant to undo: the history stack of serialized
scenes and the live scene (represented by its serialization, a list of
serialized objects). -/
structure CanvasState where
  history : List (List ℕ)
  scene : List ℕ
deriving DecidableEq

/-- Embedding of `handleUndo` (App.tsx lines 122-132) with `loadFromJSON` treated as an
atomic materialization of the new top into the live scene: no-op when
`length <= 1`, otherwise pop the top and load the new top. -/
def handleUndoAtomic (st : CanvasState) : CanvasState :=
  if st.history.length ≤ 1 then st
  else
    match (st.history.dropLast).getLast? with
    | some prevState => { history := st.history.dropLast, scene := prevState }
    | none => st

/-- The body of `saveHistory` as a closure over a captured `isProcessing`
value.  In the source, `saveHistory` is `useCallback(..., [isProcessing])`
(line 110-120), so the `isProcessing` read inside the callback is the value
captured when that particular closure was created. -/
def saveHistoryClosure (capturedIsProcessing : Bool) (st : CanvasState) : CanvasState :=
  if capturedIsProcessing then st
  else { st with history := saveHistory st.history st.scene }

/-- The `object:added` subscription as registered by the initialization effect
(App.tsx line 178): `canvas.on('object:added', () => { if(!isDrawingRef.current)
saveHistory() })`.  The effect's dependency array is `[handleUndo]` (line 333)
and `handleUndo` is `useCallback(..., [])` (line 122), so the effect runs once
at mount and the subscribed closure is the mount-render `saveHistory`, whose
captured `isProcessing` is the mount value `false`; later `setIsProcessing`
calls produce new closures that are never re-subscribed. -/
def objectAddedHandler (isDrawing : Bool) (st : CanvasState) : CanvasState :=
  if isDrawing then st else saveHistoryClosure false st

/-- Modelled from the spec: the Scene Adapter (fabric, loaded from a CDN and
not part of src/) materializes a snapshot by clearing the canvas and inserting
the snapshot's objects one by one, firing an `object:added` lifecycle event
for each inserted object ("commits triggered as a side effect of that
materialization (e.g. object:added/object:removed events fired by the load)",
spec section 4.4 / section 6). -/
def loadFromJSONCascade (st : CanvasState) (target : List ℕ) : CanvasState :=
  target.foldl
    (fun acc obj => objectAddedHandler false { acc with scene := acc.scene ++ [obj] })
    { st with scene := [] }

/-- Embedding of `handleUndo` (App.tsx lines 122-132) including the event cascade of the
materialization: pop the top, then load the new top with `object:added` fired
per object (`isDrawingRef.current` is `false` during an undo). -/
def handleUndoMaterialize (st : CanvasState) : CanvasState :=
  if st.history.length ≤ 1 then st
  else
    match (st.history.dropLast).getLast? with
    | some prevState => loadFromJSONCascade { st with history := st.history.dropLast } prevState
    | none => st

/-! ## Scene objects (fabric objects as used by App.tsx) -/

/-- A drawable object with the properties the engine reads or writes:
`otype` is the fabric type tag (`"image"`, `"path"`, `"group"`, `"i-text"`),
`selectable`/`evented` the interactivity flags, `opacity` the display opacity
in tenths (`8` for the source's `0.8`, `10` for `1`, `9` for `0.9` — kept
integral so that equality of objects stays kernel-decidable).  Cosmetic
properties (cursor, corner styling, shadow) are omitted. -/
structure Obj where
  oid : ℕ
  otype : String
  selectable : Bool
  evented : Bool
  opacity : ℕ
deriving DecidableEq

/-- The preview path object created on every arrow-drawing `mouse:move`
(App.tsx lines 239-248): `selectable: false, evented: false, opacity: 0.8`. -/
def previewObj (oid : ℕ) : Obj :=
  { oid := oid, otype := "path", selectable := false, evented := false, opacity := 8 }

/-- Finalization of the preview on `mouse:up` (App.tsx lines 269-279):
`selectable: true, evented: true, opacity: 1` (corner styling omitted). -/
def finalizeObj (o : Obj) : Obj :=
  { o with selectable := true, evented := true, opacity := 10 }

/-! ## Arrow-drawing gesture (src/App.tsx lines 187-287) -/

/-- State of the arrow-drawing gesture machinery: history stack, live scene
(serialized as its object list), `isDrawingRef`, `tempArrowRef` and whether
`arrowStartRef` holds a point.  The pointer coordinates themselves are not
tracked here; the geometric outcome of `generateArrowPath` at each move is
abstracted as the boolean input of `mouseMoveArrow` (the source only branches
on whether the returned path string is empty). -/
structure DrawState where
  history : List (List Obj)
  scene : List Obj
  isDrawing : Bool
  tempArrow : Option Obj
  hasArrowStart : Bool
deriving DecidableEq

/-- The `object:removed` subscription (App.tsx line 180):
`canvas.on('object:removed', saveHistory)`, with no `isDrawingRef` guard. -/
def fireRemoved (st : DrawState) : DrawState :=
  { st with history := saveHistory st.history st.scene }

/-- The `object:added` subscription (App.tsx line 178) at the `DrawState`
level: suppressed while `isDrawingRef.current` is true. -/
def fireAdded (st : DrawState) : DrawState :=
  if st.isDrawing then st else { st with history := saveHistory st.history st.scene }

/-- The arrow branch of the `mouse:down` handler (App.tsx lines 200-207):
set `isDrawingRef`, record the scene-space start point. -/
def mouseDownArrow (st : DrawState) : DrawState :=
  { st with isDrawing := true, hasArrowStart := true }

/-- The arrow branch of the `mouse:move` handler (App.tsx lines 224-252).
`nonEmpty` is whether `generateArrowPath` returned a non-empty path for the
current pointer; `oid` identifies the freshly constructed `fabric.Path`.
The handler is split in two: `mouseMoveRemovePrev` removes the previous
preview from the canvas (firing `object:removed` only if the object is
actually present, as fabric's `remove` does — and note the source never nulls
`tempArrowRef` here, so after a too-short move it still references the
removed object), and `mouseMoveUpdate` adds the new preview. -/
def mouseMoveRemovePrev (st : DrawState) : DrawState :=
  match st.tempArrow with
  | some o => if o ∈ st.scene then fireRemoved { st with scene := st.scene.erase o } else st
  | none => st

/-- Second half of the `mouse:move` handler: if the generated path is
non-empty, construct the new preview object and add it to the canvas (the
`object:added` this fires is suppressed by the `isDrawingRef` guard). -/
def mouseMoveUpdate (st1 : DrawState) (nonEmpty : Bool) (oid : ℕ) : DrawState :=
  if nonEmpty then
    fireAdded { st1 with scene := st1.scene ++ [previewObj oid], tempArrow := some (previewObj oid) }
  else st1

def mouseMoveArrow (st : DrawState) (nonEmpty : Bool) (oid : ℕ) : DrawState :=
  if st.isDrawing ∧ st.hasArrowStart then
    mouseMoveUpdate (mouseMoveRemovePrev st) nonEmpty oid
  else st

/-- The arrow branch of the `mouse:up` handler (App.tsx lines 265-287):
clear `isDrawingRef`; if `tempArrowRef` is set, finalize that object's
properties (in place, wherever it is on the canvas), manually invoke
`saveHistory`, and clear the gesture refs. -/
def mouseUpArrow (st : DrawState) : DrawState :=
  if st.isDrawing then
    match st.tempArrow with
    | some o =>
      { st with
          isDrawing := false,
          scene := st.scene.map (fun x => if x = o then finalizeObj o else x),
          history := saveHistory st.history
            (st.scene.map (fun x => if x = o then finalizeObj o else x)),
          tempArrow := none,
          hasArrowStart := false }
    | none => { st with isDrawing := false }
  else st

/-- Folding a list of `mouse:move` events over a gesture state. -/
def runMoves (st : DrawState) (moves : List (Bool × ℕ)) : DrawState :=
  moves.foldl (fun s m => mouseMoveArrow s m.1 m.2) st

/-- A whole arrow-drawing gesture: `mouse:down`, a list of `mouse:move`
events, then `mouse:up`. -/
def gestureRun (st : DrawState) (moves : List (Bool × ℕ)) : DrawState :=
  mouseUpArrow (runMoves (mouseDownArrow st) moves)

/-! ## Deletion (src/App.tsx lines 302-307, 453-464) -/

/-- State for the deletion path: history, scene, current selection and
whether a text object is in editing mode. -/
structure SelState where
  history : List (List Obj)
  scene : List Obj
  selected : List Obj
  editing : Bool
deriving DecidableEq

/-- One `canvas.remove(obj)` from the deletion loop (App.tsx lines 459-461):
if the object is present it is removed and the `object:removed` subscription
(line 180) fires `saveHistory`. -/
def removeObjectEvt (st : SelState) (o : Obj) : SelState :=
  if o ∈ st.scene then
    { st with
        scene := st.scene.erase o,
        history := saveHistory st.history (st.scene.erase o) }
  else st

/-- Embedding of `handleDeleteSelected` (App.tsx lines 453-464): if there are active
objects, discard the selection and remove each selected object in turn. -/
def handleDeleteSelected (st : SelState) : SelState :=
  if st.selected.isEmpty then st
  else st.selected.foldl removeObjectEvt { st with selected := [] }

/-- The Delete/Backspace branch of `handleKeyDown` (App.tsx lines 303-307):
only acts when there is an active object and it is not being text-edited. -/
def handleKeyDownDelete (st : SelState) : SelState :=
  if st.selected.isEmpty = false ∧ st.editing = false then handleDeleteSelected st else st

/-- A concrete deployed piece (a `fabric.Group`), used as test data. -/
def objA : Obj := { oid := 1, otype := "group", selectable := true, evented := true, opacity := 10 }

/-- A second concrete deployed piece, used as test data. -/
def objB : Obj := { oid := 2, otype := "group", selectable := true, evented := true, opacity := 10 }

/-! ## Tool switching and the background image (src/App.tsx lines 135-151, 337-366) -/

/-- The tool mode (`tool` state, App.tsx line 88). -/
inductive Tool where
  | select
  | arrow
deriving DecidableEq

/-- Scene plus current tool, for the background-image claims. -/
structure BoardState where
  scene : List Obj
  tool : Tool
deriving DecidableEq

/-- The background image object as configured by `handleImageUpload`
(App.tsx lines 348-356): `selectable: false, evented: false, opacity: 0.9`
(position and scale omitted). -/
def imageObj (oid : ℕ) : Obj :=
  { oid := oid, otype := "image", selectable := false, evented := false, opacity := 9 }

/-- Embedding of `handleImageUpload` (App.tsx lines 337-366) once the image has decoded:
every existing object of type `'image'` is removed, the new image is added
and sent to the back (index 0; the list is ordered back-to-front). -/
def handleImageUpload (st : BoardState) (oid : ℕ) : BoardState :=
  { st with scene := imageObj oid :: st.scene.filter (fun o => o.otype != "image") }

/-- The scene-wide update `canvas.forEachObject((o) => o.set('selectable', b))` from the
tool-switching effect. -/
def setSelectableAll (b : Bool) (sc : List Obj) : List Obj :=
  sc.map (fun o => { o with selectable := b })

/-- The tool-switching effect (App.tsx lines 135-151): entering `arrow` sets
`selectable` to `false` on every object, entering `select` sets it to `true`
on every object (cursor changes omitted). -/
def switchTool (st : BoardState) (tl : Tool) : BoardState :=
  match tl with
  | Tool.arrow => { scene := setSelectableAll false st.scene, tool := tl }
  | Tool.select => { scene := setSelectableAll true st.scene, tool := tl }

/-- Board states reachable from the freshly initialized (empty) canvas via
image uploads, tool switches, additions of non-image objects (pieces are
groups, labels are i-texts, arrows are paths; only `handleImageUpload`
creates `'image'` objects) and object removals. -/
inductive BoardReachable : BoardState → Prop where
  | init : BoardReachable { scene := [], tool := Tool.select }
  | upload (st : BoardState) (oid : ℕ) :
      BoardReachable st → BoardReachable (handleImageUpload st oid)
  | switch (st : BoardState) (tl : Tool) :
      BoardReachable st → BoardReachable (switchTool st tl)
  | addObj (st : BoardState) (o : Obj) (h : o.otype ≠ "image") :
      BoardReachable st → BoardReachable { st with scene := st.scene ++ [o] }
  | removeObj (st : BoardState) (o : Obj) :
      BoardReachable st → BoardReachable { st with scene := st.scene.erase o }

/-! ## Wheel zoom (src/App.tsx lines 290-299) -/

/-- The `mouse:wheel` handler's zoom computation (App.tsx lines 291-295):
`zoom *= 0.999 ** delta; if (zoom > 20) zoom = 20; if (zoom < 0.1) zoom = 0.1`. -/
noncomputable def mouseWheelZoom (z delta : ℝ) : ℝ :=
  let zoom := z * Real.rpow 0.999 delta
  let zoom2 := if 20 < zoom then 20 else zoom
  if zoom2 < 0.1 then 0.1 else zoom2

/-! ## Arrow geometry (src/App.tsx lines 22-77) -/

/-- Embedding of `generateArrowPath` (App.tsx lines 22-77) over the reals,
returning the list of the seven outline vertices in emission order
(tail-left, shaft-shoulder-inner-left, shaft-shoulder-outer-left, tip,
shaft-shoulder-outer-right, shaft-shoulder-inner-right, tail-right) instead
of the formatted SVG path string, and `[]` for the empty string. -/
noncomputable def generateArrowPath (x1 y1 x2 y2 thickness : ℝ) : List (ℝ × ℝ) :=
  let headLength := thickness * 3.5
  let headWidth := thickness * 3
  let shaftWidth := thickness
  let dx := x2 - x1
  let dy := y2 - y1
  let length := Real.sqrt (dx * dx + dy * dy)
  if length < headLength then []
  else
    let ux := dx / length
    let uy := dy / length
    let nx := -uy
    let ny := ux
    let shaftLength := length - headLength
    [ (x1 + nx * (shaftWidth / 2), y1 + ny * (shaftWidth / 2)),
      (x1 + ux * shaftLength + nx * (shaftWidth / 2), y1 + uy * shaftLength + ny * (shaftWidth / 2)),
      (x1 + ux * shaftLength + nx * (headWidth / 2), y1 + uy * shaftLength + ny * (headWidth / 2)),
      (x2, y2),
      (x1 + ux * shaftLength - nx * (headWidth / 2), y1 + uy * shaftLength - ny * (headWidth / 2)),
      (x1 + ux * shaftLength - nx * (shaftWidth / 2), y1 + uy * shaftLength - ny * (shaftWidth / 2)),
      (x1 - nx * (shaftWidth / 2), y1 - ny * (shaftWidth / 2)) ]

/-- The closed segment between two points of the plane. -/
def Seg (P Q : ℝ × ℝ) : Set (ℝ × ℝ) :=
  {R | ∃ θ : ℝ, 0 ≤ θ ∧ θ ≤ 1 ∧
       R.1 = (1 - θ) * P.1 + θ * Q.1 ∧ R.2 = (1 - θ) * P.2 + θ * Q.2}

/-- Formalization of the spec's "simple (non-self-intersecting) closed
polygon" for a closed heptagon with vertices `v1 .. v7` in cyclic order: the
vertices are pairwise distinct, every two non-adjacent edges are disjoint,
and every two adjacent edges meet exactly in their shared vertex. -/
def IsSimplePolygon7 (v1 v2 v3 v4 v5 v6 v7 : ℝ × ℝ) : Prop :=
  [v1, v2, v3, v4, v5, v6, v7].Pairwise (· ≠ ·) ∧
  Seg v1 v2 ∩ Seg v3 v4 = ∅ ∧ Seg v1 v2 ∩ Seg v4 v5 = ∅ ∧ Seg v1 v2 ∩ Seg v5 v6 = ∅ ∧
  Seg v1 v2 ∩ Seg v6 v7 = ∅ ∧
  Seg v2 v3 ∩ Seg v4 v5 = ∅ ∧ Seg v2 v3 ∩ Seg v5 v6 = ∅ ∧ Seg v2 v3 ∩ Seg v6 v7 = ∅ ∧
  Seg v2 v3 ∩ Seg v7 v1 = ∅ ∧
  Seg v3 v4 ∩ Seg v5 v6 = ∅ ∧ Seg v3 v4 ∩ Seg v6 v7 = ∅ ∧ Seg v3 v4 ∩ Seg v7 v1 = ∅ ∧
  Seg v4 v5 ∩ Seg v6 v7 = ∅ ∧ Seg v4 v5 ∩ Seg v7 v1 = ∅ ∧
  Seg v5 v6 ∩ Seg v7 v1 = ∅ ∧
  Seg v1 v2 ∩ Seg v2 v3 = {v2} ∧ Seg v2 v3 ∩ Seg v3 v4 = {v3} ∧
  Seg v3 v4 ∩ Seg v4 v5 = {v4} ∧ Seg v4 v5 ∩ Seg v5 v6 = {v5} ∧
  Seg v5 v6 ∩ Seg v6 v7 = {v6} ∧ Seg v6 v7 ∩ Seg v7 v1 = {v7} ∧
  Seg v7 v1 ∩ Seg v1 v2 = {v1}

/-- The rigid frame determined by base point `(x1, y1)` and unit direction
`(ux, uy)`: `frame x1 y1 ux uy a b` is the point at axial coordinate `a` and
normal coordinate `b` (the normal being `(-uy, ux)`, as in the source). -/
def frame (x1 y1 ux uy a b : ℝ) : ℝ × ℝ :=
  (x1 + a * ux - b * uy, y1 + a * uy + b * ux)

/-! ## Mid-drag style changes (src/App.tsx lines 104-106, 200-252) -/

/-- The app state consumed by the arrow-drawing handlers when style matters:
current thickness and color (kept in sync with the toolbar controls through
`thicknessRef`/`colorRef`, App.tsx lines 104-106), the recorded gesture
start point, the drawing flag, the preview currently on the canvas (its
outline and fill), and the finalized arrow's outline and fill after
`mouse:up`. -/
structure ArrowDrawUI where
  thickness : ℝ
  color : String
  hasStart : Bool
  startX : ℝ
  startY : ℝ
  drawing : Bool
  preview : Option (List (ℝ × ℝ) × String)
  finalized : Option (List (ℝ × ℝ) × String)

/-- The thickness slider / presets (App.tsx lines 515-528): `setArrowThickness`
plus the `thicknessRef` sync effect. -/
def setArrowThickness (st : ArrowDrawUI) (v : ℝ) : ArrowDrawUI :=
  { st with thickness := v }

/-- The color controls (App.tsx lines 539-557): `setPieceColor` plus the
`colorRef` sync effect. -/
def setPieceColor (st : ArrowDrawUI) (c : String) : ArrowDrawUI :=
  { st with color := c }

/-- The arrow branch of `mouse:down` (App.tsx lines 200-207): records only
the scene-space pointer position in `arrowStartRef`. -/
def arrowMouseDown (st : ArrowDrawUI) (x y : ℝ) : ArrowDrawUI :=
  { st with drawing := true, hasStart := true, startX := x, startY := y }

/-- The arrow branch of `mouse:move` (App.tsx lines 224-252): calls
`generateArrowPath` with the recorded start, the current pointer and
`thicknessRef.current`, removes the previous preview, and (if the path is
non-empty) adds a new preview filled with `colorRef.current`. -/
noncomputable def arrowMouseMove (st : ArrowDrawUI) (x y : ℝ) : ArrowDrawUI :=
  if st.drawing ∧ st.hasStart then
    if generateArrowPath st.startX st.startY x y st.thickness = [] then
      { st with preview := none }
    else
      { st with preview := some (generateArrowPath st.startX st.startY x y st.thickness, st.color) }
  else st

/-- The seven outline vertices of a horizontal arrow from `(0,0)` to `(100,0)`
with thickness 6 (shaft length `100 - 21 = 79`, half-widths 3 and 9). -/
def demoPts6 : List (ℝ × ℝ) :=
  [(0, 3), (79, 3), (79, 9), (100, 0), (79, -9), (79, -3), (0, -3)]

/-- The seven outline vertices of a horizontal arrow from `(0,0)` to `(100,0)`
with thickness 8 (shaft length `100 - 28 = 72`, half-widths 4 and 12). -/
def demoPts8 : List (ℝ × ℝ) :=
  [(0, 4), (72, 4), (72, 12), (100, 0), (72, -12), (72, -4), (0, -4)]

/-- The arrow branch of `mouse:up` (App.tsx lines 265-287) at this level:
the preview object, with its geometry and fill untouched, becomes the
finalized arrow. -/
def arrowMouseUp (st : ArrowDrawUI) : ArrowDrawUI :=
  if st.drawing then
    { st with drawing := false, hasStart := false, finalized := st.preview, preview := none }
  else st

/-! ## Helper lemmas about the history stack -/

theorem saveHistory_getLast {α : Type} [DecidableEq α] (h : List α) (s : α) :
    (saveHistory h s).getLast? = some s := by
  unfold saveHistory
  split
  · next heq => exact heq
  · split
    · next hlen =>
        cases h with
        | nil => simp at hlen
        | cons a t =>
            simp only [List.cons_append, List.tail_cons]
            exact List.getLast?_concat t
    · exact List.getLast?_concat h

theorem saveHistory_length_pos {α : Type} [DecidableEq α] (h : List α) (s : α) :
    1 ≤ (saveHistory h s).length := by
  unfold saveHistory
  split
  · next heq =>
      cases h with
      | nil => simp at heq
      | cons a t => simp
  · split
    · next hlen => simp at hlen ⊢; omega
    · simp

theorem saveHistory_length_le {α : Type} [DecidableEq α] (h : List α) (s : α)
    (hle : h.length ≤ 50) : (saveHistory h s).length ≤ 50 := by
  unfold saveHistory
  split
  · exact hle
  · split
    · simp; omega
    · next hlen => simp at hlen ⊢; omega

theorem saveHistory_dedup_eq {α : Type} [DecidableEq α] (h : List α) (s : α)
    (heq : h.getLast? = some s) : saveHistory h s = h := by
  unfold saveHistory
  rw [if_pos heq]

theorem saveHistory_ne_self {α : Type} [DecidableEq α] (h : List α) (s : α)
    (hne : h.getLast? ≠ some s) : saveHistory h s ≠ h := by
  intro hcontra
  apply hne
  rw [← hcontra]
  exact saveHistory_getLast h s

theorem saveHistory_push {α : Type} [DecidableEq α] (h : List α) (s : α)
    (hne : h.getLast? ≠ some s) (hlen : h.length ≤ 49) : saveHistory h s = h ++ [s] := by
  have hlen' : ¬ 50 < (h ++ [s]).length := by simp; omega
  unfold saveHistory
  simp only [if_neg hne, if_neg hlen']

theorem saveHistory_evict {α : Type} [DecidableEq α] (h : List α) (s : α)
    (hne : h.getLast? ≠ some s) (hlen : h.length = 50) :
    saveHistory h s = h.tail ++ [s] := by
  have hlen' : 50 < (h ++ [s]).length := by simp [hlen]
  unfold saveHistory
  simp only [if_neg hne, if_pos hlen']
  cases h with
  | nil => simp at hlen
  | cons a t => simp

theorem reachableHistory_length (h : List ℕ) (hr : ReachableHistory h) :
    1 ≤ h.length ∧ h.length ≤ 50 := by
  induction hr with
  | init s => exact ⟨saveHistory_length_pos [] s, saveHistory_length_le [] s (by simp)⟩
  | save h s hr ih => exact ⟨saveHistory_length_pos h s, saveHistory_length_le h s ih.2⟩
  | undo h hr ih =>
      unfold undoStack
      split
      · exact ih
      · next hgt =>
          push_neg at hgt
          simp only [List.length_dropLast]
          omega

theorem chain'_ne_dropLast {α : Type} {l : List α} (h : l.Chain' (· ≠ ·)) :
    l.dropLast.Chain' (· ≠ ·) := by
  rcases eq_or_ne l [] with rfl | hne
  · simp
  · have hp : l.dropLast <+: l := ⟨[l.getLast hne], List.dropLast_append_getLast hne⟩
    exact List.Chain'.prefix h hp

/-! ## C1, C5, C6, C2, C9 -/

/-- C1: for every history stack reachable after engine initialization (which
commits one snapshot of the base scene), the length lies in `[1, 50]`; a
commit on a full stack keeps the length at 50 and, when not deduplicated,
evicts the oldest entry; undo never removes the last remaining entry. -/
theorem history_stack_bounded (h : List ℕ) (hr : ReachableHistory h) :
    (1 ≤ h.length ∧ h.length ≤ 50) ∧
    (∀ s, h.length = 50 → (saveHistory h s).length = 50) ∧
    (∀ s, h.length = 50 → h.getLast? ≠ some s → saveHistory h s = h.tail ++ [s]) ∧
    (h.length = 1 → undoStack h = h) ∧
    1 ≤ (undoStack h).length := by
  have hb := reachableHistory_length h hr
  refine ⟨hb, ?_, ?_, ?_, ?_⟩
  · intro s h50
    by_cases heq : h.getLast? = some s
    · rw [saveHistory_dedup_eq h s heq]; exact h50
    · rw [saveHistory_evict h s heq h50]
      simp [h50]
  · intro s h50 hne
    exact saveHistory_evict h s hne h50
  · intro h1
    unfold undoStack
    rw [if_pos (by omega)]
  · unfold undoStack
    split
    · exact hb.1
    · next hgt =>
        push_neg at hgt
        simp only [List.length_dropLast]
        omega

theorem history_stack_bounded_witness :
    ReachableHistory [0] ∧ 1 ≤ ([0] : List ℕ).length ∧ 1 ≤ (undoStack ([0] : List ℕ)).length := by
  have hr : ReachableHistory [0] := by
    have := ReachableHistory.init 0
    simpa [saveHistory] using this
  exact ⟨hr, (history_stack_bounded [0] hr).1.1, (history_stack_bounded [0] hr).2.2.2.2⟩

/-- C5: commit is idempotent on identical snapshots: committing a snapshot
equal to the current top leaves the stack unchanged, committing the same
serialized scene twice in a row yields the same stack as committing it once,
and no reachable stack contains two consecutive identical snapshots. -/
theorem commit_idempotent_dedup (h : List ℕ) (s : ℕ) (hr : ReachableHistory h) :
    (h.getLast? = some s → saveHistory h s = h) ∧
    saveHistory (saveHistory h s) s = saveHistory h s ∧
    h.Chain' (· ≠ ·) := by
  refine ⟨fun heq => saveHistory_dedup_eq h s heq,
         saveHistory_dedup_eq _ s (saveHistory_getLast h s), ?_⟩
  induction hr with
  | init s' =>
      have hinit : saveHistory [] s' = [s'] := by
        unfold saveHistory; simp
      rw [hinit]; simp
  | save h s' hr ih =>
      by_cases heq : h.getLast? = some s'
      · rw [saveHistory_dedup_eq h s' heq]; exact ih
      · have hchain : (h ++ [s']).Chain' (· ≠ ·) := by
          rw [List.chain'_append]
          refine ⟨ih, by simp, ?_⟩
          intro x hx y hy
          simp only [List.head?_cons, Option.mem_def, Option.some.injEq] at hy
          subst hy
          intro hxy
          exact heq (hxy ▸ hx)
        have hle := (reachableHistory_length h hr).2
        by_cases hlen : h.length ≤ 49
        · rw [saveHistory_push h s' heq hlen]; exact hchain
        · have h50 : h.length = 50 := by omega
          rw [saveHistory_evict h s' heq h50]
          have htail : (h ++ [s']).tail = h.tail ++ [s'] := by
            cases h with
            | nil => simp at h50
            | cons a t => simp
          rw [← htail]
          exact List.Chain'.tail hchain
  | undo h hr ih =>
      unfold undoStack
      split
      · exact ih
      · exact chain'_ne_dropLast ih

theorem commit_idempotent_dedup_witness :
    ReachableHistory [0] ∧ saveHistory ([0] : List ℕ) 0 = [0] ∧
      saveHistory (saveHistory ([0] : List ℕ) 5) 5 = saveHistory ([0] : List ℕ) 5 := by
  have hr : ReachableHistory [0] := by
    have := ReachableHistory.init 0
    simpa [saveHistory] using this
  exact ⟨hr, (commit_idempotent_dedup [0] 0 hr).1 rfl, (commit_idempotent_dedup [0] 5 hr).2.1⟩

/-- C6: when the history stack has length 1, `handleUndo` is a no-op on both
the stack and the live scene (hence idempotent at the boundary); when the
length is at least 2, it removes exactly the top entry and materializes the
new top into the live scene. -/
theorem handleUndo_boundary_pop (st : CanvasState) :
    (st.history.length = 1 →
       handleUndoAtomic st = st ∧ handleUndoAtomic (handleUndoAtomic st) = st) ∧
    (2 ≤ st.history.length →
       (handleUndoAtomic st).history = st.history.dropLast ∧
       (handleUndoAtomic st).history.getLast? = some (handleUndoAtomic st).scene ∧
       (handleUndoAtomic st).history.length = st.history.length - 1) := by
  constructor
  · intro h1
    have hnoop : handleUndoAtomic st = st := by
      unfold handleUndoAtomic
      rw [if_pos (by omega)]
    exact ⟨hnoop, by rw [hnoop, hnoop]⟩
  · intro h2
    have hne : st.history.dropLast ≠ [] := by
      intro hcontra
      have := List.length_dropLast st.history
      rw [hcontra] at this
      simp at this
      omega
    obtain ⟨x, hx⟩ : ∃ x, st.history.dropLast.getLast? = some x := by
      cases he : st.history.dropLast.getLast? with
      | none => exact absurd (List.getLast?_eq_none_iff.mp he) hne
      | some x => exact ⟨x, rfl⟩
    unfold handleUndoAtomic
    rw [if_neg (by omega), hx]
    exact ⟨rfl, hx, List.length_dropLast st.history⟩

theorem handleUndo_boundary_pop_witness :
    handleUndoAtomic { history := [[5]], scene := [5] } = { history := [[5]], scene := [5] } ∧
    (handleUndoAtomic { history := [[1], [2]], scene := [2] }).history = [[1]] := by
  constructor
  · exact ((handleUndo_boundary_pop { history := [[5]], scene := [5] }).1 (by decide)).1
  · exact ((handleUndo_boundary_pop { history := [[1], [2]], scene := [2] }).2 (by decide)).1

/-- C2 (refuting evaluation): undoing from history `[[1,2], [1,2,3]]` pops the
top and materializes `[1,2]`; the `object:added` events fired by the
materialization reach the mount-registered `saveHistory` closure, whose
captured `isProcessing` is `false` (the initialization effect depends only on
the stable `handleUndo` and never re-subscribes), so the intermediate snapshot
`[1]` and the re-serialized target `[1,2]` are appended — the claimed
suppression (which would leave the stack at `[[1,2]]`) does not happen. -/
theorem undo_materialization_not_suppressed :
    (handleUndoMaterialize { history := [[1, 2], [1, 2, 3]], scene := [1, 2, 3] }).history
      = [[1, 2], [1], [1, 2]] ∧
    ([[1, 2], [1], [1, 2]] : List (List ℕ)) ≠ [[1, 2]] := by
  constructor
  · decide
  · decide

/-- C9: for every wheel event with raw delta `d` and current zoom `z`, the
resulting zoom equals `z * 0.999 ^ d` clamped into `[0.1, 20]`; requests
outside the range saturate at the nearer bound. -/
theorem mouseWheelZoom_clamped (z delta : ℝ) :
    mouseWheelZoom z delta = max 0.1 (min 20 (z * Real.rpow 0.999 delta)) ∧
    0.1 ≤ mouseWheelZoom z delta ∧ mouseWheelZoom z delta ≤ 20 ∧
    (20 < z * Real.rpow 0.999 delta → mouseWheelZoom z delta = 20) ∧
    (z * Real.rpow 0.999 delta < 0.1 → mouseWheelZoom z delta = 0.1) ∧
    (0.1 ≤ z * Real.rpow 0.999 delta → z * Real.rpow 0.999 delta ≤ 20 →
       mouseWheelZoom z delta = z * Real.rpow 0.999 delta) := by
  have hkey : mouseWheelZoom z delta = max 0.1 (min 20 (z * Real.rpow 0.999 delta)) := by
    simp only [mouseWheelZoom]
    by_cases h1 : 20 < z * Real.rpow 0.999 delta
    · rw [if_pos h1, if_neg (by norm_num : ¬ (20 : ℝ) < 0.1),
         min_eq_left (le_of_lt h1), max_eq_right (by norm_num : (0.1 : ℝ) ≤ 20)]
    · rw [if_neg h1]
      push_neg at h1
      rw [min_eq_right h1]
      by_cases h2 : z * Real.rpow 0.999 delta < 0.1
      · rw [if_pos h2, max_eq_left (le_of_lt h2)]
      · rw [if_neg h2, max_eq_right (not_lt.mp h2)]
  refine ⟨hkey, ?_, ?_, ?_, ?_, ?_⟩
  · rw [hkey]; exact le_max_left _ _
  · rw [hkey]
    exact max_le (by norm_num) (min_le_left _ _)
  · intro hgt
    rw [hkey, min_eq_left (le_of_lt hgt), max_eq_right (by norm_num : (0.1 : ℝ) ≤ 20)]
  · intro hlt
    rw [hkey, max_eq_left]
    exact le_trans (min_le_right _ _) (le_of_lt hlt)
  · intro hge hle
    rw [hkey, min_eq_right hle, max_eq_right hge]

theorem mouseWheelZoom_clamped_witness :
    0.1 ≤ mouseWheelZoom 1 0 ∧ mouseWheelZoom 1 0 ≤ 20 :=
  ⟨(mouseWheelZoom_clamped 1 0).2.1, (mouseWheelZoom_clamped 1 0).2.2.1⟩

/-! ## C4: the arrow-drawing gesture -/

theorem fireAdded_drawing (st : DrawState) (hD : st.isDrawing = true) : fireAdded st = st := by
  simp [fireAdded, hD]

theorem removePrev_none (st : DrawState) (hT : st.tempArrow = none) :
    mouseMoveRemovePrev st = st := by
  simp [mouseMoveRemovePrev, hT]

theorem removePrev_mem (st : DrawState) (o : Obj) (hT : st.tempArrow = some o)
    (hm : o ∈ st.scene) :
    mouseMoveRemovePrev st = fireRemoved { st with scene := st.scene.erase o } := by
  simp [mouseMoveRemovePrev, hT, hm]

theorem removePrev_not_mem (st : DrawState) (o : Obj) (hT : st.tempArrow = some o)
    (hm : o ∉ st.scene) :
    mouseMoveRemovePrev st = st := by
  simp [mouseMoveRemovePrev, hT, hm]

theorem mouseMoveUpdate_true (st1 : DrawState) (j : ℕ) :
    mouseMoveUpdate st1 true j =
      fireAdded { st1 with scene := st1.scene ++ [previewObj j],
                           tempArrow := some (previewObj j) } := rfl

theorem mouseMoveUpdate_false (st1 : DrawState) (j : ℕ) :
    mouseMoveUpdate st1 false j = st1 := rfl

theorem mouseMoveArrow_eq (st : DrawState) (b : Bool) (j : ℕ)
    (hD : st.isDrawing = true) (hA : st.hasArrowStart = true) :
    mouseMoveArrow st b j = mouseMoveUpdate (mouseMoveRemovePrev st) b j := by
  unfold mouseMoveArrow
  rw [if_pos ⟨hD, hA⟩]

theorem mouseUpArrow_some (st : DrawState) (o : Obj) (hD : st.isDrawing = true)
    (hT : st.tempArrow = some o) :
    mouseUpArrow st = { st with
        isDrawing := false,
        scene := st.scene.map (fun x => if x = o then finalizeObj o else x),
        history := saveHistory st.history
          (st.scene.map (fun x => if x = o then finalizeObj o else x)),
        tempArrow := none,
        hasArrowStart := false } := by
  simp [mouseUpArrow, hD, hT]

theorem mouseUpArrow_none (st : DrawState) (hD : st.isDrawing = true)
    (hT : st.tempArrow = none) :
    mouseUpArrow st = { st with isDrawing := false } := by
  simp [mouseUpArrow, hD, hT]

theorem erase_appended_fresh (l : List Obj) (o : Obj) (ho : o ∉ l) :
    (l ++ [o]).erase o = l := by
  rw [List.erase_append_right _ ho]
  simp

theorem map_finalize_fresh (l : List Obj) (o : Obj) (ho : o ∉ l) :
    l.map (fun x => if x = o then finalizeObj o else x) = l := by
  have : l.map (fun x => if x = o then finalizeObj o else x) = l.map id := by
    apply List.map_congr_left
    intro a ha
    have hne : a ≠ o := fun he => ho (he ▸ ha)
    rw [if_neg hne]
    rfl
  rw [this, List.map_id]

/-- The state reached after the removal half of a `mouse:move`, for a gesture
started from an at-rest state `st0`: the original scene is restored, the
history is untouched (the `object:removed` commit deduplicates against the
top), and `tempArrowRef` holds nothing or some fresh preview object. -/
theorem removePrev_spec (st0 st : DrawState)
    (hTop : st0.history.getLast? = some st0.scene)
    (hH : st.history = st0.history) (hD : st.isDrawing = true) (hA : st.hasArrowStart = true)
    (hT : st.tempArrow = none ∧ st.scene = st0.scene ∨
          ∃ i, st.tempArrow = some (previewObj i) ∧ previewObj i ∉ st0.scene ∧
            (st.scene = st0.scene ++ [previewObj i] ∨ st.scene = st0.scene)) :
    (mouseMoveRemovePrev st).history = st0.history ∧
    (mouseMoveRemovePrev st).isDrawing = true ∧
    (mouseMoveRemovePrev st).hasArrowStart = true ∧
    (mouseMoveRemovePrev st).scene = st0.scene ∧
    ((mouseMoveRemovePrev st).tempArrow = none ∨
     ∃ i, (mouseMoveRemovePrev st).tempArrow = some (previewObj i) ∧
       previewObj i ∉ st0.scene) := by
  rcases hT with ⟨hnone, hsc⟩ | ⟨i, hsome, hfi, hsc | hsc⟩
  · rw [removePrev_none st hnone]
    exact ⟨hH, hD, hA, hsc, Or.inl hnone⟩
  · have hm : previewObj i ∈ st.scene := by rw [hsc]; simp
    rw [removePrev_mem st (previewObj i) hsome hm]
    have herase : st.scene.erase (previewObj i) = st0.scene := by
      rw [hsc]
      exact erase_appended_fresh st0.scene (previewObj i) hfi
    refine ⟨?_, hD, hA, ?_, Or.inr ⟨i, hsome, hfi⟩⟩
    · show saveHistory st.history (st.scene.erase (previewObj i)) = st0.history
      rw [herase, hH]
      exact saveHistory_dedup_eq st0.history st0.scene hTop
    · show st.scene.erase (previewObj i) = st0.scene
      exact herase
  · have hm : previewObj i ∉ st.scene := by rw [hsc]; exact hfi
    rw [removePrev_not_mem st (previewObj i) hsome hm]
    exact ⟨hH, hD, hA, hsc, Or.inr ⟨i, hsome, hfi⟩⟩

/-- The invariant maintained across each `mouse:move` event of a gesture
started from an at-rest state `st0`. -/
theorem mouseMoveArrow_step (st0 st : DrawState) (b : Bool) (j : ℕ)
    (hTop : st0.history.getLast? = some st0.scene)
    (hfreshj : previewObj j ∉ st0.scene)
    (hH : st.history = st0.history) (hD : st.isDrawing = true) (hA : st.hasArrowStart = true)
    (hT : st.tempArrow = none ∧ st.scene = st0.scene ∨
          ∃ i, st.tempArrow = some (previewObj i) ∧ previewObj i ∉ st0.scene ∧
            (st.scene = st0.scene ++ [previewObj i] ∨ st.scene = st0.scene)) :
    (mouseMoveArrow st b j).history = st0.history ∧
    (mouseMoveArrow st b j).isDrawing = true ∧
    (mouseMoveArrow st b j).hasArrowStart = true ∧
    ((mouseMoveArrow st b j).tempArrow = none ∧ (mouseMoveArrow st b j).scene = st0.scene ∨
     ∃ i, (mouseMoveArrow st b j).tempArrow = some (previewObj i) ∧
       previewObj i ∉ st0.scene ∧
       ((mouseMoveArrow st b j).scene = st0.scene ++ [previewObj i] ∨
        (mouseMoveArrow st b j).scene = st0.scene)) := by
  rw [mouseMoveArrow_eq st b j hD hA]
  obtain ⟨hH1, hD1, hA1, hS1, hT1⟩ := removePrev_spec st0 st hTop hH hD hA hT
  cases b with
  | false =>
      rw [mouseMoveUpdate_false]
      refine ⟨hH1, hD1, hA1, ?_⟩
      rcases hT1 with hnone | ⟨i, hsome, hfi⟩
      · exact Or.inl ⟨hnone, hS1⟩
      · exact Or.inr ⟨i, hsome, hfi, Or.inr hS1⟩
  | true =>
      rw [mouseMoveUpdate_true]
      rw [fireAdded_drawing _ (by simpa using hD1)]
      refine ⟨by simpa using hH1, by simpa using hD1, by simpa using hA1, ?_⟩
      exact Or.inr ⟨j, rfl, hfreshj, Or.inl (by simp [hS1])⟩

/-- The gesture invariant propagated over an arbitrary list of moves. -/
theorem runMoves_invariant (st0 : DrawState) (moves : List (Bool × ℕ))
    (hTop : st0.history.getLast? = some st0.scene)
    (hfresh : ∀ m ∈ moves, previewObj m.2 ∉ st0.scene)
    (st : DrawState)
    (hH : st.history = st0.history) (hD : st.isDrawing = true) (hA : st.hasArrowStart = true)
    (hT : st.tempArrow = none ∧ st.scene = st0.scene ∨
          ∃ i, st.tempArrow = some (previewObj i) ∧ previewObj i ∉ st0.scene ∧
            (st.scene = st0.scene ++ [previewObj i] ∨ st.scene = st0.scene)) :
    (runMoves st moves).history = st0.history ∧
    (runMoves st moves).isDrawing = true ∧
    (runMoves st moves).hasArrowStart = true ∧
    ((runMoves st moves).tempArrow = none ∧ (runMoves st moves).scene = st0.scene ∨
     ∃ i, (runMoves st moves).tempArrow = some (previewObj i) ∧
       previewObj i ∉ st0.scene ∧
       ((runMoves st moves).scene = st0.scene ++ [previewObj i] ∨
        (runMoves st moves).scene = st0.scene)) := by
  induction moves generalizing st with
  | nil => exact ⟨hH, hD, hA, hT⟩
  | cons m rest ih =>
      have hstep := mouseMoveArrow_step st0 st m.1 m.2 hTop
        (hfresh m (List.mem_cons_self m rest)) hH hD hA hT
      have hfresh' : ∀ m' ∈ rest, previewObj m'.2 ∉ st0.scene :=
        fun m' hm' => hfresh m' (List.mem_cons_of_mem m hm')
      exact ih hfresh' (mouseMoveArrow st m.1 m.2)
        hstep.1 hstep.2.1 hstep.2.2.1 hstep.2.2.2

/-- C4: for every arrow-drawing gesture (pointer-down in arrow mode, any
moves, pointer-up) started from an at-rest state (the top of the history is
the serialized current scene) with fresh preview objects: no commit happens
during the intermediate moves; if a preview object is on the canvas at
pointer-up it is finalized, added permanently, and the net effect on the
history is exactly one commit (which genuinely appends); if no preview is on
the canvas at pointer-up, no object is added and no commit occurs. -/
theorem arrow_gesture_single_commit (st0 : DrawState) (moves : List (Bool × ℕ))
    (hIdle : st0.isDrawing = false) (hTemp : st0.tempArrow = none)
    (hTop : st0.history.getLast? = some st0.scene)
    (hfresh : ∀ m ∈ moves, previewObj m.2 ∉ st0.scene) :
    (runMoves (mouseDownArrow st0) moves).history = st0.history ∧
    ((∃ o, (runMoves (mouseDownArrow st0) moves).tempArrow = some o ∧
        o ∈ (runMoves (mouseDownArrow st0) moves).scene) →
      ∃ o, (runMoves (mouseDownArrow st0) moves).tempArrow = some o ∧
        (gestureRun st0 moves).scene = st0.scene ++ [finalizeObj o] ∧
        (gestureRun st0 moves).history
          = saveHistory st0.history (st0.scene ++ [finalizeObj o]) ∧
        (gestureRun st0 moves).history ≠ st0.history ∧
        (gestureRun st0 moves).tempArrow = none) ∧
    ((∀ o, (runMoves (mouseDownArrow st0) moves).tempArrow = some o →
        o ∉ (runMoves (mouseDownArrow st0) moves).scene) →
      (gestureRun st0 moves).scene = st0.scene ∧
      (gestureRun st0 moves).history = st0.history) := by
  have hinv := runMoves_invariant st0 moves hTop hfresh (mouseDownArrow st0)
    rfl rfl rfl (Or.inl ⟨by simp [mouseDownArrow, hTemp], rfl⟩)
  obtain ⟨hHm, hDm, hAm, hTm⟩ := hinv
  have hgest : gestureRun st0 moves = mouseUpArrow (runMoves (mouseDownArrow st0) moves) := rfl
  refine ⟨hHm, ?_, ?_⟩
  · rintro ⟨o, ho, homem⟩
    rcases hTm with ⟨hnone, hsc⟩ | ⟨i, hsome, hfi, hscL | hscR⟩
    · rw [ho] at hnone; exact absurd hnone (by simp)
    · have hoi : o = previewObj i := Option.some.inj (ho.symm.trans hsome)
      rw [← hoi] at hscL hfi
      rw [hgest, mouseUpArrow_some _ o hDm ho]
      have hmap : (runMoves (mouseDownArrow st0) moves).scene.map
          (fun x => if x = o then finalizeObj o else x) = st0.scene ++ [finalizeObj o] := by
        rw [hscL, List.map_append, map_finalize_fresh st0.scene o hfi]
        simp
      have hne : st0.history.getLast? ≠ some (st0.scene ++ [finalizeObj o]) := by
        rw [hTop]
        intro hcontra
        have := Option.some.inj hcontra
        have hlen := congrArg List.length this
        simp at hlen
      refine ⟨o, ho, ?_, ?_, ?_, rfl⟩
      · show (runMoves (mouseDownArrow st0) moves).scene.map
            (fun x => if x = o then finalizeObj o else x) = st0.scene ++ [finalizeObj o]
        exact hmap
      · show saveHistory (runMoves (mouseDownArrow st0) moves).history
            ((runMoves (mouseDownArrow st0) moves).scene.map
              (fun x => if x = o then finalizeObj o else x))
          = saveHistory st0.history (st0.scene ++ [finalizeObj o])
        rw [hmap, hHm]
      · show saveHistory (runMoves (mouseDownArrow st0) moves).history
            ((runMoves (mouseDownArrow st0) moves).scene.map
              (fun x => if x = o then finalizeObj o else x)) ≠ st0.history
        rw [hmap, hHm]
        exact saveHistory_ne_self st0.history _ hne
    · have hoi : o = previewObj i := Option.some.inj (ho.symm.trans hsome)
      rw [hoi, hscR] at homem
      exact absurd homem hfi
  · intro hno
    rcases hTm with ⟨hnone, hsc⟩ | ⟨i, hsome, hfi, hscL | hscR⟩
    · rw [hgest, mouseUpArrow_none _ hDm hnone]
      exact ⟨hsc, hHm⟩
    · have := hno (previewObj i) hsome
      rw [hscL] at this
      exact absurd (by simp : previewObj i ∈ st0.scene ++ [previewObj i]) this
    · rw [hgest, mouseUpArrow_some _ (previewObj i) hDm hsome]
      constructor
      · show (runMoves (mouseDownArrow st0) moves).scene.map
            (fun x => if x = previewObj i then finalizeObj (previewObj i) else x) = st0.scene
        rw [hscR]
        exact map_finalize_fresh st0.scene (previewObj i) hfi
      · show saveHistory (runMoves (mouseDownArrow st0) moves).history
            ((runMoves (mouseDownArrow st0) moves).scene.map
              (fun x => if x = previewObj i then finalizeObj (previewObj i) else x))
          = st0.history
        rw [hscR, map_finalize_fresh st0.scene (previewObj i) hfi, hHm]
        exact saveHistory_dedup_eq st0.history st0.scene hTop

theorem arrow_gesture_single_commit_witness :
    (runMoves (mouseDownArrow ⟨[[]], [], false, none, false⟩) [(true, 3)]).history = [[]] ∧
    (gestureRun ⟨[[]], [], false, none, false⟩ [(true, 3)]).history
      = saveHistory [[]] ([] ++ [finalizeObj (previewObj 3)]) := by
  have h := arrow_gesture_single_commit ⟨[[]], [], false, none, false⟩
    [(true, 3)] rfl rfl rfl (by decide)
  refine ⟨h.1, ?_⟩
  have hmid : (runMoves (mouseDownArrow ⟨[[]], [], false, none, false⟩)
      [(true, 3)]).tempArrow = some (previewObj 3) := by decide
  obtain ⟨o, ho, hsc, hh, hne, htm⟩ := h.2.1 ⟨previewObj 3, hmid, by decide⟩
  have hoi : o = previewObj 3 := Option.some.inj (ho.symm.trans hmid)
  rw [hoi] at hh
  exact hh

/-! ## C8: deletion -/

theorem foldl_erase_preserve_not_mem (sel : List Obj) : ∀ (sc : List Obj) (o : Obj),
    o ∉ sc → o ∉ sel.foldl List.erase sc := by
  induction sel with
  | nil => intro sc o h; simpa using h
  | cons a rest ih =>
      intro sc o h
      rw [List.foldl_cons]
      apply ih
      intro hmem
      exact h (List.mem_of_mem_erase hmem)

theorem foldl_erase_not_mem (sel : List Obj) : ∀ (sc : List Obj), sc.Nodup → sel.Nodup →
    ∀ o ∈ sel, o ∉ sel.foldl List.erase sc := by
  induction sel with
  | nil => intro sc h1 h2 o ho; simp at ho
  | cons a rest ih =>
      intro sc h1 h2 o ho
      rw [List.foldl_cons]
      rcases List.mem_cons.mp ho with rfl | hor
      · apply foldl_erase_preserve_not_mem
        intro hmem
        exact absurd ((List.Nodup.mem_erase_iff h1).mp hmem).1 (by simp)
      · exact ih (sc.erase a) (List.Nodup.erase a h1) ((List.nodup_cons.mp h2).2) o hor

/-- The deletion loop of `handleDeleteSelected`, started at rest, commits once
per removed object: each `canvas.remove` fires `object:removed`, whose
`saveHistory` serializes a scene that differs from the current top. -/
theorem removeLoop_spec (sel : List Obj) : ∀ (st : SelState),
    st.scene.Nodup → sel.Nodup → (∀ o ∈ sel, o ∈ st.scene) →
    st.history.getLast? = some st.scene →
    st.history.length + sel.length ≤ 50 →
    (sel.foldl removeObjectEvt st).scene = sel.foldl List.erase st.scene ∧
    (sel.foldl removeObjectEvt st).history.length = st.history.length + sel.length ∧
    (sel.foldl removeObjectEvt st).selected = st.selected ∧
    (sel.foldl removeObjectEvt st).history.getLast?
      = some (sel.foldl removeObjectEvt st).scene ∧
    (sel.foldl removeObjectEvt st).scene.Nodup := by
  induction sel with
  | nil =>
      intro st h1 h2 h3 h4 h5
      exact ⟨rfl, by simp, rfl, h4, h1⟩
  | cons o rest ih =>
      intro st h1 h2 h3 h4 h5
      have hmem : o ∈ st.scene := h3 o (List.mem_cons_self o rest)
      have hne : st.history.getLast? ≠ some (st.scene.erase o) := by
        rw [h4]
        intro hcontra
        have heq := Option.some.inj hcontra
        have hlen := congrArg List.length heq
        rw [List.length_erase_of_mem hmem] at hlen
        have hpos : 0 < st.scene.length := List.length_pos_of_mem hmem
        omega
      have hpush : saveHistory st.history (st.scene.erase o)
          = st.history ++ [st.scene.erase o] := by
        apply saveHistory_push _ _ hne
        simp at h5
        omega
      have hstep : removeObjectEvt st o =
          { st with scene := st.scene.erase o,
                    history := st.history ++ [st.scene.erase o] } := by
        unfold removeObjectEvt
        rw [if_pos hmem, hpush]
      have hnodup' : (st.scene.erase o).Nodup := List.Nodup.erase o h1
      have hsub' : ∀ o' ∈ rest, o' ∈ st.scene.erase o := by
        intro o' ho'
        have hne' : o' ≠ o := fun he => (List.nodup_cons.mp h2).1 (he ▸ ho')
        exact (List.mem_erase_of_ne hne').mpr (h3 o' (List.mem_cons_of_mem o ho'))
      have hih := ih { st with scene := st.scene.erase o,
                               history := st.history ++ [st.scene.erase o] }
        hnodup' ((List.nodup_cons.mp h2).2) hsub' (by simpa using List.getLast?_concat _)
        (by simp at h5 ⊢; omega)
      rw [List.foldl_cons, List.foldl_cons, hstep]
      refine ⟨hih.1, ?_, hih.2.2.1, hih.2.2.2.1, hih.2.2.2.2⟩
      rw [hih.2.1]
      simp
      omega

/-- C8 (counterexample): with two objects selected, `handleDeleteSelected`
removes them one by one and each `canvas.remove` fires `object:removed`,
whose unguarded `saveHistory` commits the intermediate scene: from rest with
scene and selection `[objA, objB]` the history gains two entries (`[objB]`
and `[]`), not the single entry a lone commit of the final scene would give. -/
theorem delete_two_objects_two_commits :
    (handleKeyDownDelete ⟨[[objA, objB]], [objA, objB], [objA, objB], false⟩).history
      = [[objA, objB], [objB], []] ∧
    saveHistory [[objA, objB]] ([] : List Obj) = [[objA, objB], []] ∧
    ([[objA, objB], [objB], []] : List (List Obj)) ≠ [[objA, objB], []] := by
  refine ⟨?_, ?_, ?_⟩ <;> decide

/-- C8 (amended): for every Delete/Backspace press with `N ≥ 1` objects
selected and no text-editing target focused, started at rest with room in the
history: all `N` selected objects are removed from the scene and exactly `N`
history commits are triggered, one per removed object (each capturing an
intermediate scene), rather than one commit for the whole deletion. -/
theorem delete_selected_commit_per_object (st : SelState)
    (hsel : st.selected ≠ []) (hedit : st.editing = false)
    (hnodupScene : st.scene.Nodup) (hnodupSel : st.selected.Nodup)
    (hsub : ∀ o ∈ st.selected, o ∈ st.scene)
    (hTop : st.history.getLast? = some st.scene)
    (hlen : st.history.length + st.selected.length ≤ 50) :
    (handleKeyDownDelete st).scene = st.selected.foldl List.erase st.scene ∧
    (handleKeyDownDelete st).history.length = st.history.length + st.selected.length ∧
    (handleKeyDownDelete st).selected = [] ∧
    (∀ o ∈ st.selected, o ∉ (handleKeyDownDelete st).scene) := by
  have hkey : handleKeyDownDelete st
      = st.selected.foldl removeObjectEvt { st with selected := [] } := by
    unfold handleKeyDownDelete handleDeleteSelected
    rw [if_pos ⟨by simpa using hsel, hedit⟩, if_neg (by simpa using hsel)]
  have hspec := removeLoop_spec st.selected { st with selected := [] }
    hnodupScene hnodupSel hsub hTop hlen
  rw [hkey]
  refine ⟨hspec.1, hspec.2.1, hspec.2.2.1, ?_⟩
  intro o ho
  rw [hspec.1]
  exact foldl_erase_not_mem st.selected st.scene hnodupScene hnodupSel o ho

theorem delete_selected_commit_per_object_witness :
    (handleKeyDownDelete ⟨[[objA]], [objA], [objA], false⟩).history.length = 2 ∧
    (handleKeyDownDelete ⟨[[objA]], [objA], [objA], false⟩).selected = [] := by
  have h := delete_selected_commit_per_object ⟨[[objA]], [objA], [objA], false⟩
    (by decide) rfl (by decide) (by decide) (by decide) (by decide) (by decide)
  exact ⟨h.2.1, h.2.2.1⟩

/-! ## C10: the background image -/

/-- Every image object in a reachable board scene is non-evented: uploads
insert images with `evented: false`, the tool-switch effect only writes
`selectable`, and all other additions are non-image objects. -/
theorem boardReachable_image_not_evented (st : BoardState) (hr : BoardReachable st) :
    ∀ o ∈ st.scene, o.otype = "image" → o.evented = false := by
  induction hr with
  | init => intro o ho; simp at ho
  | upload st oid hr ih =>
      intro o ho htype
      simp only [handleImageUpload] at ho
      rcases List.mem_cons.mp ho with rfl | hmem
      · rfl
      · exact ih o (List.mem_of_mem_filter hmem) htype
  | switch st tl hr ih =>
      intro o ho htype
      cases tl with
      | arrow =>
          simp only [switchTool, setSelectableAll] at ho
          obtain ⟨o', ho', rfl⟩ := List.mem_map.mp ho
          exact ih o' ho' htype
      | select =>
          simp only [switchTool, setSelectableAll] at ho
          obtain ⟨o', ho', rfl⟩ := List.mem_map.mp ho
          exact ih o' ho' htype
  | addObj st o' hne hr ih =>
      intro o ho htype
      rcases List.mem_append.mp ho with hmem | hmem
      · exact ih o hmem htype
      · rw [List.mem_singleton.mp hmem] at htype
        exact absurd htype hne
  | removeObj st o' hr ih =>
      intro o ho htype
      exact ih o (List.mem_of_mem_erase ho) htype

/-- C10 (counterexample): after uploading a background image, switching the
tool to `arrow` and back to `select` runs the tool-switch effect, which sets
`selectable` to `true` on every object — including the background image.  The
resulting state is reachable and holds the image with `selectable = true`,
refuting "remains non-selectable in every subsequently reachable state". -/
theorem background_image_selectable_counterexample :
    BoardReachable (switchTool (switchTool
      (handleImageUpload ⟨[], Tool.select⟩ 1) Tool.arrow) Tool.select) ∧
    (switchTool (switchTool (handleImageUpload ⟨[], Tool.select⟩ 1) Tool.arrow)
      Tool.select).scene = [⟨1, "image", true, false, 9⟩] ∧
    (⟨1, "image", true, false, 9⟩ : Obj).selectable = true := by
  refine ⟨?_, by decide, rfl⟩
  exact BoardReachable.switch _ _ (BoardReachable.switch _ _
    (BoardReachable.upload _ 1 BoardReachable.init))

/-- C10 (amended): in every reachable board state the background image
remains non-evented (the tool-switch effect only rewrites `selectable`), and
loading a new image removes any previous background image (the image objects
of the scene after an upload are exactly the new image, which is present);
the image does however not remain non-selectable, since switching to select
mode sets `selectable := true` on every object including the image. -/
theorem background_image_locked_amended (st : BoardState) (hr : BoardReachable st) :
    (∀ o ∈ st.scene, o.otype = "image" → o.evented = false) ∧
    (∀ oid, (handleImageUpload st oid).scene.filter (fun o => o.otype == "image")
      = [imageObj oid]) ∧
    (∀ oid, imageObj oid ∈ (handleImageUpload st oid).scene) := by
  refine ⟨boardReachable_image_not_evented st hr, ?_, ?_⟩
  · intro oid
    show (imageObj oid :: st.scene.filter (fun o => o.otype != "image")).filter
        (fun o => o.otype == "image") = [imageObj oid]
    rw [List.filter_cons_of_pos (by simp [imageObj])]
    have hnil : (st.scene.filter (fun o => o.otype != "image")).filter
        (fun o => o.otype == "image") = [] := by
      rw [List.filter_filter]
      have hfalse : ∀ a ∈ st.scene, ¬((a.otype == "image") && (a.otype != "image")) = true := by
        intro a ha
        cases h : a.otype == "image" <;> simp [bne, h]
      exact List.filter_eq_nil_iff.mpr hfalse
    rw [hnil]
  · intro oid
    exact List.mem_cons_self _ _

theorem background_image_locked_amended_witness :
    BoardReachable (handleImageUpload ⟨[], Tool.select⟩ 2) ∧
    (∀ o ∈ (handleImageUpload ⟨[], Tool.select⟩ 2).scene, o.otype = "image" →
      o.evented = false) := by
  have hr : BoardReachable (handleImageUpload ⟨[], Tool.select⟩ 2) :=
    BoardReachable.upload _ 2 BoardReachable.init
  exact ⟨hr, (background_image_locked_amended _ hr).1⟩

/-! ## C7: mid-drag style changes -/

theorem generateArrowPath_eval_100_6 :
    generateArrowPath 0 0 100 0 6 = demoPts6 := by
  have hs : Real.sqrt (((100 : ℝ) - 0) * (100 - 0) + (0 - 0) * (0 - 0)) = 100 := by
    rw [show (((100 : ℝ) - 0) * (100 - 0) + (0 - 0) * (0 - 0)) = 100 ^ 2 by norm_num]
    exact Real.sqrt_sq (by norm_num)
  simp only [generateArrowPath, demoPts6, hs]
  norm_num

theorem generateArrowPath_eval_100_8 :
    generateArrowPath 0 0 100 0 8 = demoPts8 := by
  have hs : Real.sqrt (((100 : ℝ) - 0) * (100 - 0) + (0 - 0) * (0 - 0)) = 100 := by
    rw [show (((100 : ℝ) - 0) * (100 - 0) + (0 - 0) * (0 - 0)) = 100 ^ 2 by norm_num]
    exact Real.sqrt_sq (by norm_num)
  simp only [generateArrowPath, demoPts8, hs]
  norm_num

theorem arrowMouseMove_drawing (st : ArrowDrawUI) (x y : ℝ)
    (hD : st.drawing = true) (hS : st.hasStart = true)
    (pts : List (ℝ × ℝ)) (hpts : generateArrowPath st.startX st.startY x y st.thickness = pts)
    (hne : pts ≠ []) :
    arrowMouseMove st x y = { st with preview := some (pts, st.color) } := by
  unfold arrowMouseMove
  rw [if_pos ⟨hD, hS⟩, hpts, if_neg hne]

/-- C7 (counterexample): dragging from `(0,0)` to `(100,0)` with thickness 6,
then changing the thickness control to 8 mid-drag and moving again to the
same pointer position, replaces the preview with one computed from the new
thickness — the handler reads `thicknessRef.current` at every move, so the
preview geometry is altered, refuting the claimed freezing at gesture start. -/
theorem arrow_thickness_read_mid_drag :
    (arrowMouseMove (setArrowThickness (arrowMouseMove (arrowMouseDown
        ⟨6, "#ef4444", false, 0, 0, false, none, none⟩ 0 0) 100 0) 8) 100 0).preview
      ≠ (arrowMouseMove (arrowMouseDown
        ⟨6, "#ef4444", false, 0, 0, false, none, none⟩ 0 0) 100 0).preview ∧
    (arrowMouseMove (arrowMouseDown
        ⟨6, "#ef4444", false, 0, 0, false, none, none⟩ 0 0) 100 0).preview
      = some (demoPts6, "#ef4444") ∧
    (arrowMouseMove (setArrowThickness (arrowMouseMove (arrowMouseDown
        ⟨6, "#ef4444", false, 0, 0, false, none, none⟩ 0 0) 100 0) 8) 100 0).preview
      = some (demoPts8, "#ef4444") := by
  have hA : arrowMouseMove (arrowMouseDown
      ⟨6, "#ef4444", false, 0, 0, false, none, none⟩ 0 0) 100 0
      = ⟨6, "#ef4444", true, 0, 0, true, some (demoPts6, "#ef4444"), none⟩ := by
    have := arrowMouseMove_drawing (arrowMouseDown
      ⟨6, "#ef4444", false, 0, 0, false, none, none⟩ 0 0) 100 0 rfl rfl
      demoPts6 generateArrowPath_eval_100_6 (by simp [demoPts6])
    exact this
  have hB : arrowMouseMove (setArrowThickness
      (⟨6, "#ef4444", true, 0, 0, true, some (demoPts6, "#ef4444"), none⟩ : ArrowDrawUI) 8)
      100 0
      = ⟨8, "#ef4444", true, 0, 0, true, some (demoPts8, "#ef4444"), none⟩ := by
    have := arrowMouseMove_drawing (setArrowThickness
      (⟨6, "#ef4444", true, 0, 0, true, some (demoPts6, "#ef4444"), none⟩ : ArrowDrawUI) 8)
      100 0 rfl rfl demoPts8 generateArrowPath_eval_100_8 (by simp [demoPts8])
    exact this
  rw [hA, hB]
  refine ⟨?_, rfl, rfl⟩
  intro hcontra
  simp only [Option.some.injEq, Prod.mk.injEq, demoPts6, demoPts8, List.cons.injEq,
    Prod.mk.injEq] at hcontra
  norm_num at hcontra

/-- C7 (amended): the stroke thickness and fill color are read afresh from
the current controls at every pointer-move (the gesture state records only
the start point): a mid-drag thickness or color change followed by a move
yields exactly the state of a gesture begun with the new value, and the
finalized arrow keeps the geometry and fill of the last preview (the values
current at the last move), not those at gesture start. -/
theorem arrow_style_read_per_move (t0 t1 : ℝ) (c0 c1 : String) (sx sy x y : ℝ) :
    arrowMouseMove (setArrowThickness (arrowMouseDown
        ⟨t0, c0, false, 0, 0, false, none, none⟩ sx sy) t1) x y
      = arrowMouseMove (arrowMouseDown ⟨t1, c0, false, 0, 0, false, none, none⟩ sx sy) x y ∧
    arrowMouseMove (setPieceColor (arrowMouseDown
        ⟨t0, c0, false, 0, 0, false, none, none⟩ sx sy) c1) x y
      = arrowMouseMove (arrowMouseDown ⟨t0, c1, false, 0, 0, false, none, none⟩ sx sy) x y ∧
    ∀ st : ArrowDrawUI, st.drawing = true → (arrowMouseUp st).finalized = st.preview := by
  refine ⟨rfl, rfl, ?_⟩
  intro st hD
  unfold arrowMouseUp
  rw [if_pos hD]

theorem arrow_style_read_per_move_witness :
    (arrowMouseUp ⟨6, "#ef4444", true, 0, 0, true, none, none⟩).finalized = none :=
  (arrow_style_read_per_move 6 6 "#ef4444" "#ef4444" 0 0 0 0).2.2
    ⟨6, "#ef4444", true, 0, 0, true, none, none⟩ rfl

/-! ## C3: arrow geometry -/

theorem frame_inj (x1 y1 ux uy : ℝ) (hu : ux ^ 2 + uy ^ 2 = 1) {a b a' b' : ℝ}
    (h : frame x1 y1 ux uy a b = frame x1 y1 ux uy a' b') : a = a' ∧ b = b' := by
  have h1 : x1 + a * ux - b * uy = x1 + a' * ux - b' * uy := congrArg Prod.fst h
  have h2 : y1 + a * uy + b * ux = y1 + a' * uy + b' * ux := congrArg Prod.snd h
  constructor
  · linear_combination ux * h1 + uy * h2 - (a - a') * hu
  · linear_combination (-uy) * h1 + ux * h2 - (b - b') * hu

theorem frame_ne (x1 y1 ux uy : ℝ) (hu : ux ^ 2 + uy ^ 2 = 1) {a b a' b' : ℝ}
    (h : ¬(a = a' ∧ b = b')) : frame x1 y1 ux uy a b ≠ frame x1 y1 ux uy a' b' :=
  fun he => h (frame_inj x1 y1 ux uy hu he)

theorem seg_frame_mem (x1 y1 ux uy a b c d : ℝ) (R : ℝ × ℝ) :
    R ∈ Seg (frame x1 y1 ux uy a b) (frame x1 y1 ux uy c d) ↔
    ∃ θ : ℝ, 0 ≤ θ ∧ θ ≤ 1 ∧
      R = frame x1 y1 ux uy ((1 - θ) * a + θ * c) ((1 - θ) * b + θ * d) := by
  constructor
  · rintro ⟨θ, h0, h1, hx, hy⟩
    refine ⟨θ, h0, h1, ?_⟩
    rw [Prod.ext_iff]
    constructor
    · rw [hx]; simp only [frame]; ring
    · rw [hy]; simp only [frame]; ring
  · rintro ⟨θ, h0, h1, rfl⟩
    refine ⟨θ, h0, h1, ?_, ?_⟩ <;> simp only [frame] <;> ring

theorem seg_frame_disjoint (x1 y1 ux uy : ℝ) (hu : ux ^ 2 + uy ^ 2 = 1)
    (a1 b1 a2 b2 a3 b3 a4 b4 : ℝ)
    (h : ∀ θ μ : ℝ, 0 ≤ θ → θ ≤ 1 → 0 ≤ μ → μ ≤ 1 →
      (1 - θ) * a1 + θ * a2 = (1 - μ) * a3 + μ * a4 →
      (1 - θ) * b1 + θ * b2 = (1 - μ) * b3 + μ * b4 → False) :
    Seg (frame x1 y1 ux uy a1 b1) (frame x1 y1 ux uy a2 b2) ∩
      Seg (frame x1 y1 ux uy a3 b3) (frame x1 y1 ux uy a4 b4) = ∅ := by
  ext R
  simp only [Set.mem_inter_iff, Set.mem_empty_iff_false, iff_false, not_and]
  intro h1 h2
  rw [seg_frame_mem] at h1 h2
  obtain ⟨θ, hθ0, hθ1, hR1⟩ := h1
  obtain ⟨μ, hμ0, hμ1, hR2⟩ := h2
  have hcomp := frame_inj x1 y1 ux uy hu (hR1.symm.trans hR2)
  exact h θ μ hθ0 hθ1 hμ0 hμ1 hcomp.1 hcomp.2

theorem seg_frame_adj (x1 y1 ux uy : ℝ) (hu : ux ^ 2 + uy ^ 2 = 1)
    (a1 b1 a2 b2 a3 b3 : ℝ)
    (h : ∀ θ μ : ℝ, 0 ≤ θ → θ ≤ 1 → 0 ≤ μ → μ ≤ 1 →
      (1 - θ) * a1 + θ * a2 = (1 - μ) * a2 + μ * a3 →
      (1 - θ) * b1 + θ * b2 = (1 - μ) * b2 + μ * b3 →
      (1 - θ) * a1 + θ * a2 = a2 ∧ (1 - θ) * b1 + θ * b2 = b2) :
    Seg (frame x1 y1 ux uy a1 b1) (frame x1 y1 ux uy a2 b2) ∩
      Seg (frame x1 y1 ux uy a2 b2) (frame x1 y1 ux uy a3 b3)
      = {frame x1 y1 ux uy a2 b2} := by
  ext R
  simp only [Set.mem_inter_iff, Set.mem_singleton_iff]
  constructor
  · rintro ⟨h1, h2⟩
    rw [seg_frame_mem] at h1 h2
    obtain ⟨θ, hθ0, hθ1, hR1⟩ := h1
    obtain ⟨μ, hμ0, hμ1, hR2⟩ := h2
    have hcomp := frame_inj x1 y1 ux uy hu (hR1.symm.trans hR2)
    obtain ⟨hA, hB⟩ := h θ μ hθ0 hθ1 hμ0 hμ1 hcomp.1 hcomp.2
    rw [hR1, hA, hB]
  · intro hR
    constructor
    · rw [seg_frame_mem]
      refine ⟨1, by norm_num, le_refl 1, ?_⟩
      rw [hR]
      norm_num
    · rw [seg_frame_mem]
      refine ⟨0, le_refl 0, by norm_num, ?_⟩
      rw [hR]
      norm_num

/-- The seven arrow-outline vertices, expressed in the frame of the start
point and the unit direction, form a simple closed polygon whenever the
shaft length `s` is positive: `(0, ±t/2)` tail corners, `(s, ±t/2)` inner
shoulders, `(s, ±3t/2)` outer shoulders, `(s + 3.5t, 0)` tip. -/
theorem arrow_frame_simple (x1 y1 ux uy t s : ℝ) (hu : ux ^ 2 + uy ^ 2 = 1)
    (ht : 0 < t) (hs : 0 < s) :
    IsSimplePolygon7 (frame x1 y1 ux uy 0 (t / 2)) (frame x1 y1 ux uy s (t / 2))
      (frame x1 y1 ux uy s (3 * t / 2)) (frame x1 y1 ux uy (s + 3.5 * t) 0)
      (frame x1 y1 ux uy s (-(3 * t / 2))) (frame x1 y1 ux uy s (-(t / 2)))
      (frame x1 y1 ux uy 0 (-(t / 2))) := by
  unfold IsSimplePolygon7
  refine ⟨?_, ?_, ?_, ?_, ?_, ?_, ?_, ?_, ?_, ?_, ?_, ?_, ?_, ?_, ?_, ?_, ?_, ?_, ?_,
    ?_, ?_, ?_⟩
  · -- the seven vertices are pairwise distinct
    simp only [List.pairwise_cons, List.mem_cons, List.mem_singleton, List.not_mem_nil,
      or_false, forall_eq_or_imp, forall_eq, List.Pairwise.nil, false_implies,
      forall_const, and_true]
    repeat' apply And.intro
    all_goals exact frame_ne x1 y1 ux uy hu (by rintro ⟨h1, h2⟩; linarith)
  · -- e1 vs e3
    apply seg_frame_disjoint x1 y1 ux uy hu
    intro θ μ hθ0 hθ1 hμ0 hμ1 hA hB
    nlinarith [mul_nonneg (sub_nonneg.mpr hθ1) hs.le, mul_nonneg hμ0 ht.le,
      mul_nonneg (sub_nonneg.mpr hμ1) ht.le]
  · -- e1 vs e4
    apply seg_frame_disjoint x1 y1 ux uy hu
    intro θ μ hθ0 hθ1 hμ0 hμ1 hA hB
    nlinarith [mul_nonneg hμ0 ht.le]
  · -- e1 vs e5
    apply seg_frame_disjoint x1 y1 ux uy hu
    intro θ μ hθ0 hθ1 hμ0 hμ1 hA hB
    nlinarith [mul_nonneg (sub_nonneg.mpr hμ1) ht.le]
  · -- e1 vs e6
    apply seg_frame_disjoint x1 y1 ux uy hu
    intro θ μ hθ0 hθ1 hμ0 hμ1 hA hB
    nlinarith []
  · -- e2 vs e4
    apply seg_frame_disjoint x1 y1 ux uy hu
    intro θ μ hθ0 hθ1 hμ0 hμ1 hA hB
    nlinarith [mul_nonneg hθ0 ht.le, mul_nonneg hμ0 ht.le]
  · -- e2 vs e5
    apply seg_frame_disjoint x1 y1 ux uy hu
    intro θ μ hθ0 hθ1 hμ0 hμ1 hA hB
    nlinarith [mul_nonneg hθ0 ht.le, mul_nonneg (sub_nonneg.mpr hμ1) ht.le]
  · -- e2 vs e6
    apply seg_frame_disjoint x1 y1 ux uy hu
    intro θ μ hθ0 hθ1 hμ0 hμ1 hA hB
    nlinarith [mul_nonneg hθ0 ht.le]
  · -- e2 vs e7
    apply seg_frame_disjoint x1 y1 ux uy hu
    intro θ μ hθ0 hθ1 hμ0 hμ1 hA hB
    nlinarith []
  · -- e3 vs e5
    apply seg_frame_disjoint x1 y1 ux uy hu
    intro θ μ hθ0 hθ1 hμ0 hμ1 hA hB
    nlinarith [mul_nonneg (sub_nonneg.mpr hθ1) ht.le, mul_nonneg (sub_nonneg.mpr hμ1) ht.le]
  · -- e3 vs e6
    apply seg_frame_disjoint x1 y1 ux uy hu
    intro θ μ hθ0 hθ1 hμ0 hμ1 hA hB
    nlinarith [mul_nonneg (sub_nonneg.mpr hθ1) ht.le]
  · -- e3 vs e7
    apply seg_frame_disjoint x1 y1 ux uy hu
    intro θ μ hθ0 hθ1 hμ0 hμ1 hA hB
    nlinarith [mul_nonneg hθ0 ht.le]
  · -- e4 vs e6
    apply seg_frame_disjoint x1 y1 ux uy hu
    intro θ μ hθ0 hθ1 hμ0 hμ1 hA hB
    nlinarith [mul_nonneg hμ0 hs.le]
  · -- e4 vs e7
    apply seg_frame_disjoint x1 y1 ux uy hu
    intro θ μ hθ0 hθ1 hμ0 hμ1 hA hB
    nlinarith [mul_nonneg (sub_nonneg.mpr hθ1) ht.le]
  · -- e5 vs e7
    apply seg_frame_disjoint x1 y1 ux uy hu
    intro θ μ hθ0 hθ1 hμ0 hμ1 hA hB
    nlinarith []
  · -- e1 and e2 meet exactly in the inner left shoulder
    apply seg_frame_adj x1 y1 ux uy hu
    intro θ μ hθ0 hθ1 hμ0 hμ1 hA hB
    constructor <;> nlinarith [mul_nonneg hμ0 ht.le]
  · -- e2 and e3 meet exactly in the outer left shoulder
    apply seg_frame_adj x1 y1 ux uy hu
    intro θ μ hθ0 hθ1 hμ0 hμ1 hA hB
    constructor <;> nlinarith [mul_nonneg hμ0 ht.le]
  · -- e3 and e4 meet exactly in the tip
    apply seg_frame_adj x1 y1 ux uy hu
    intro θ μ hθ0 hθ1 hμ0 hμ1 hA hB
    constructor <;>
      nlinarith [mul_nonneg (sub_nonneg.mpr hθ1) ht.le, mul_nonneg hμ0 ht.le]
  · -- e4 and e5 meet exactly in the outer right shoulder
    apply seg_frame_adj x1 y1 ux uy hu
    intro θ μ hθ0 hθ1 hμ0 hμ1 hA hB
    constructor <;> nlinarith []
  · -- e5 and e6 meet exactly in the inner right shoulder
    apply seg_frame_adj x1 y1 ux uy hu
    intro θ μ hθ0 hθ1 hμ0 hμ1 hA hB
    constructor <;> nlinarith []
  · -- e6 and e7 meet exactly in the right tail corner
    apply seg_frame_adj x1 y1 ux uy hu
    intro θ μ hθ0 hθ1 hμ0 hμ1 hA hB
    constructor <;> nlinarith []
  · -- e7 and e1 meet exactly in the left tail corner
    apply seg_frame_adj x1 y1 ux uy hu
    intro θ μ hθ0 hθ1 hμ0 hμ1 hA hB
    constructor <;> nlinarith []

/-- C3 (amended): for every thickness `t > 0`: if the distance between the
endpoints is below the head length `3.5 * t`, `generateArrowPath` returns the
empty result; if the distance strictly exceeds `3.5 * t`, it returns exactly
7 vertices in the fixed emission order whose tip (fourth) vertex is `p2`,
forming a simple (non-self-intersecting) closed polygon.  (At distance
exactly `3.5 * t` the shaft degenerates and the outline is not simple; see
the boundary counterexample.) -/
theorem generateArrowPath_spec (x1 y1 x2 y2 t : ℝ) (ht : 0 < t) :
    (Real.sqrt ((x2 - x1) * (x2 - x1) + (y2 - y1) * (y2 - y1)) < t * 3.5 →
      generateArrowPath x1 y1 x2 y2 t = []) ∧
    (t * 3.5 < Real.sqrt ((x2 - x1) * (x2 - x1) + (y2 - y1) * (y2 - y1)) →
      ∃ q1 q2 q3 q5 q6 q7 : ℝ × ℝ,
        generateArrowPath x1 y1 x2 y2 t = [q1, q2, q3, (x2, y2), q5, q6, q7] ∧
        IsSimplePolygon7 q1 q2 q3 (x2, y2) q5 q6 q7) := by
  constructor
  · intro hlt
    simp only [generateArrowPath]
    rw [if_pos hlt]
  · intro hd
    have hL0 : 0 < Real.sqrt ((x2 - x1) * (x2 - x1) + (y2 - y1) * (y2 - y1)) :=
      lt_trans (by linarith) hd
    have hLne : Real.sqrt ((x2 - x1) * (x2 - x1) + (y2 - y1) * (y2 - y1)) ≠ 0 :=
      ne_of_gt hL0
    have hsq : Real.sqrt ((x2 - x1) * (x2 - x1) + (y2 - y1) * (y2 - y1)) ^ 2
        = (x2 - x1) * (x2 - x1) + (y2 - y1) * (y2 - y1) :=
      Real.sq_sqrt (add_nonneg (mul_self_nonneg _) (mul_self_nonneg _))
    have hu : ((x2 - x1) / Real.sqrt ((x2 - x1) * (x2 - x1) + (y2 - y1) * (y2 - y1))) ^ 2
        + ((y2 - y1) / Real.sqrt ((x2 - x1) * (x2 - x1) + (y2 - y1) * (y2 - y1))) ^ 2
        = 1 := by
      field_simp
      linear_combination -hsq
    have htip : frame x1 y1
        ((x2 - x1) / Real.sqrt ((x2 - x1) * (x2 - x1) + (y2 - y1) * (y2 - y1)))
        ((y2 - y1) / Real.sqrt ((x2 - x1) * (x2 - x1) + (y2 - y1) * (y2 - y1)))
        (Real.sqrt ((x2 - x1) * (x2 - x1) + (y2 - y1) * (y2 - y1)) - t * 3.5 + 3.5 * t) 0
        = (x2, y2) := by
      unfold frame
      rw [Prod.mk.injEq]
      constructor
      · field_simp
        ring
      · field_simp
        ring
    have hsimple := arrow_frame_simple x1 y1
      ((x2 - x1) / Real.sqrt ((x2 - x1) * (x2 - x1) + (y2 - y1) * (y2 - y1)))
      ((y2 - y1) / Real.sqrt ((x2 - x1) * (x2 - x1) + (y2 - y1) * (y2 - y1)))
      t (Real.sqrt ((x2 - x1) * (x2 - x1) + (y2 - y1) * (y2 - y1)) - t * 3.5)
      hu ht (by linarith)
    rw [htip] at hsimple
    have heval : generateArrowPath x1 y1 x2 y2 t =
        [frame x1 y1
          ((x2 - x1) / Real.sqrt ((x2 - x1) * (x2 - x1) + (y2 - y1) * (y2 - y1)))
          ((y2 - y1) / Real.sqrt ((x2 - x1) * (x2 - x1) + (y2 - y1) * (y2 - y1)))
          0 (t / 2),
         frame x1 y1
          ((x2 - x1) / Real.sqrt ((x2 - x1) * (x2 - x1) + (y2 - y1) * (y2 - y1)))
          ((y2 - y1) / Real.sqrt ((x2 - x1) * (x2 - x1) + (y2 - y1) * (y2 - y1)))
          (Real.sqrt ((x2 - x1) * (x2 - x1) + (y2 - y1) * (y2 - y1)) - t * 3.5) (t / 2),
         frame x1 y1
          ((x2 - x1) / Real.sqrt ((x2 - x1) * (x2 - x1) + (y2 - y1) * (y2 - y1)))
          ((y2 - y1) / Real.sqrt ((x2 - x1) * (x2 - x1) + (y2 - y1) * (y2 - y1)))
          (Real.sqrt ((x2 - x1) * (x2 - x1) + (y2 - y1) * (y2 - y1)) - t * 3.5) (3 * t / 2),
         (x2, y2),
         frame x1 y1
          ((x2 - x1) / Real.sqrt ((x2 - x1) * (x2 - x1) + (y2 - y1) * (y2 - y1)))
          ((y2 - y1) / Real.sqrt ((x2 - x1) * (x2 - x1) + (y2 - y1) * (y2 - y1)))
          (Real.sqrt ((x2 - x1) * (x2 - x1) + (y2 - y1) * (y2 - y1)) - t * 3.5)
          (-(3 * t / 2)),
         frame x1 y1
          ((x2 - x1) / Real.sqrt ((x2 - x1) * (x2 - x1) + (y2 - y1) * (y2 - y1)))
          ((y2 - y1) / Real.sqrt ((x2 - x1) * (x2 - x1) + (y2 - y1) * (y2 - y1)))
          (Real.sqrt ((x2 - x1) * (x2 - x1) + (y2 - y1) * (y2 - y1)) - t * 3.5)
          (-(t / 2)),
         frame x1 y1
          ((x2 - x1) / Real.sqrt ((x2 - x1) * (x2 - x1) + (y2 - y1) * (y2 - y1)))
          ((y2 - y1) / Real.sqrt ((x2 - x1) * (x2 - x1) + (y2 - y1) * (y2 - y1)))
          0 (-(t / 2))] := by
      simp only [generateArrowPath]
      rw [if_neg (not_lt.mpr (le_of_lt hd))]
      simp only [frame, Prod.mk.injEq, List.cons.injEq, and_true]
      repeat' apply And.intro
      all_goals ring
    exact ⟨_, _, _, _, _, _, heval, hsimple⟩

/-- C3 (counterexample): at distance exactly the head length (`p1 = (0,0)`,
`p2 = (7,0)`, `t = 2`, distance `7 = 3.5 * 2`), `generateArrowPath` is in its
"otherwise" branch and returns 7 vertices, but the shaft length is zero: the
tail corners coincide with the inner shoulders (`(0,1)` twice and `(0,-1)`
twice), so the outline is not a simple polygon, refuting the claim for the
boundary case. -/
theorem generateArrowPath_boundary_not_simple :
    generateArrowPath 0 0 7 0 2 =
      [(0, 1), (0, 1), (0, 3), (7, 0), (0, -3), (0, -1), (0, -1)] ∧
    ¬ Real.sqrt (((7 : ℝ) - 0) * (7 - 0) + ((0 : ℝ) - 0) * (0 - 0)) < 2 * 3.5 ∧
    ¬ IsSimplePolygon7 (0, 1) (0, 1) (0, 3) (7, 0) (0, -3) (0, -1) (0, -1) := by
  have hs : Real.sqrt (((7 : ℝ) - 0) * (7 - 0) + ((0 : ℝ) - 0) * (0 - 0)) = 7 := by
    rw [show ((((7 : ℝ) - 0) * (7 - 0) + ((0 : ℝ) - 0) * (0 - 0))) = 7 ^ 2 by norm_num]
    exact Real.sqrt_sq (by norm_num)
  refine ⟨?_, by rw [hs]; norm_num, ?_⟩
  · simp only [generateArrowPath, hs]
    norm_num
  · intro hcontra
    have hpair := hcontra.1
    have h12 := (List.pairwise_cons.mp hpair).1 ((0 : ℝ), (1 : ℝ)) (by simp)
    exact h12 rfl

theorem generateArrowPath_spec_witness :
    (0 : ℝ) < 2 ∧
    ((Real.sqrt (((8 : ℝ) - 0) * (8 - 0) + ((0 : ℝ) - 0) * (0 - 0)) < 2 * 3.5 →
      generateArrowPath 0 0 8 0 2 = []) ∧
    (2 * 3.5 < Real.sqrt (((8 : ℝ) - 0) * (8 - 0) + ((0 : ℝ) - 0) * (0 - 0)) →
      ∃ q1 q2 q3 q5 q6 q7 : ℝ × ℝ,
        generateArrowPath 0 0 8 0 2 = [q1, q2, q3, ((8 : ℝ), (0 : ℝ)), q5, q6, q7] ∧
        IsSimplePolygon7 q1 q2 q3 (8, 0) q5 q6 q7)) :=
  ⟨by norm_num, generateArrowPath_spec 0 0 8 0 2 (by norm_num)⟩
